import Mathlib

/-!
Verification of the auction server core: `AuctionState` (auction_logic.py)
and `AuctionHub` (auction_hub.py), embedded shallowly.  Python numbers are
modelled as rationals, wall-clock readings (`datetime.now()`) as an explicit
`now : Rat` argument to the operations that consult the clock, and the
`(success, message)` tuples as `Bool × BidMsg` with the message's data
carried by an inductive type.  The thread lock serialises each method, so
each method is a pure function on the state.
-/

/-- A bid record, the dict appended to `bid_history` by `place_bid`:
\x7buser, value, timestamp, bid_number\x7d. -/
structure BidRecord where
  user : String
  value : Rat
  timestamp : Rat
  bid_number : Nat
deriving DecidableEq, Repr

/-- The state held by `AuctionState.__init__`.  The `threading.Lock` field
serialises the methods and carries no data, so it is omitted. -/
structure AuctionState where
  current_price : Rat
  current_winner : Option String
  starting_price : Rat
  min_increment : Rat
  is_active : Bool
  bid_history : List BidRecord
  total_bids : Nat
  unique_bidders : Finset String
  start_time : Rat
  end_time : Option Rat
deriving DecidableEq

/-- `AuctionState.__init__(starting_price, min_increment)` with the
construction time `now` standing for `datetime.now()`. -/
def AuctionState.init (starting_price min_increment : Rat) (now : Rat) : AuctionState :=
  { current_price := starting_price
    current_winner := none
    starting_price := starting_price
    min_increment := min_increment
    is_active := true
    bid_history := []
    total_bids := 0
    unique_bidders := ∅
    start_time := now
    end_time := none }

/-- The messages returned by `place_bid`, with the interpolated data of each
Python format string carried as arguments. -/
inductive BidMsg where
  | auctionEnded
  | mustBePositive
  | mustExceed (current : Rat)
  | belowMinimum (required : Rat) (increment : Rat)
  | accepted (user : String) (value : Rat)
deriving DecidableEq, Repr

/-- `AuctionState.place_bid(user, value)`: the four validations in source
order, each an early `return (False, message)`, then the state update and
history append.  `now` stands for the `datetime.now()` timestamp recorded
in the bid record. -/
def AuctionState.place_bid (s : AuctionState) (user : String) (value : Rat) (now : Rat) :
    (Bool × BidMsg) × AuctionState :=
  if s.is_active = false then ((false, .auctionEnded), s)
  else if value ≤ 0 then ((false, .mustBePositive), s)
  else if value ≤ s.current_price then ((false, .mustExceed s.current_price), s)
  else if value < s.current_price + s.min_increment then
    ((false, .belowMinimum (s.current_price + s.min_increment) s.min_increment), s)
  else
    ((true, .accepted user value),
      { s with
        current_price := value
        current_winner := some user
        total_bids := s.total_bids + 1
        unique_bidders := insert user s.unique_bidders
        bid_history := s.bid_history ++
          [{ user := user, value := value, timestamp := now,
             bid_number := s.total_bids + 1 }] })

/-- Python list slicing `xs[i:]` for an integer start index `i`: a
nonnegative index drops the first `i` elements, a negative index counts
from the end, clamped at the start of the list. -/
def sliceFrom (xs : List BidRecord) (i : Int) : List BidRecord :=
  if 0 ≤ i then xs.drop i.toNat
  else xs.drop ((xs.length : Int) + i).toNat

/-- `AuctionState.get_bid_history(limit)` with an explicitly passed `limit`:
`none` models Python `None`.  The source returns
`self.bid_history[-limit:] if limit else self.bid_history.copy()`, so a
falsy limit (`None` or `0`) yields the whole history and any other limit
yields the slice starting at index `-limit`. -/
def AuctionState.get_bid_history (s : AuctionState) (limit : Option Int) : List BidRecord :=
  match limit with
  | none => s.bid_history
  | some l => if l ≠ 0 then sliceFrom s.bid_history (-l) else s.bid_history

/-- `AuctionState.get_bid_history()` called without an argument: the Python
default is `limit=10`. -/
def AuctionState.get_bid_history_default (s : AuctionState) : List BidRecord :=
  s.get_bid_history (some 10)

/-- The dict returned by `AuctionState.get_statistics`.  `duration_seconds`
is `Option Rat` because the source leaves `duration = None` when the
auction is inactive and `end_time` is unset; `avg_bid_interval` inherits
that optionality (in Python, dividing that `None` would raise). -/
structure Statistics where
  total_bids : Nat
  unique_bidders : Nat
  current_price : Rat
  starting_price : Rat
  price_increase : Rat
  current_winner : Option String
  is_active : Bool
  duration_seconds : Option Rat
  avg_bid_interval : Option Rat
deriving DecidableEq

/-- `AuctionState.get_statistics()`, with `now` standing for
`datetime.now()`.  A stored `datetime` is always truthy, so the source's
`if self.end_time:` tests exactly whether `end_time` is set. -/
def AuctionState.get_statistics (s : AuctionState) (now : Rat) : Statistics :=
  let duration : Option Rat :=
    match s.end_time with
    | some e => some (e - s.start_time)
    | none => if s.is_active then some (now - s.start_time) else none
  { total_bids := s.total_bids
    unique_bidders := s.unique_bidders.card
    current_price := s.current_price
    starting_price := s.starting_price
    price_increase := s.current_price - s.starting_price
    current_winner := s.current_winner
    is_active := s.is_active
    duration_seconds := duration
    avg_bid_interval :=
      if 0 < s.total_bids then duration.map (fun d => d / (s.total_bids : Rat))
      else some 0 }

/-- `AuctionState.end_auction()`: sets `is_active = False` and
`end_time = datetime.now()` (the `now` argument), unconditionally. -/
def AuctionState.end_auction (s : AuctionState) (now : Rat) : AuctionState :=
  { s with is_active := false, end_time := some now }

/-- `AuctionState.reset_auction(new_starting_price)`: the source guard is
`if new_starting_price:`, Python truthiness, so only a value that is given
and nonzero replaces `starting_price`; then every mutable field is set back
to a fresh session with `start_time = datetime.now()` (the `now`
argument). -/
def AuctionState.reset_auction (s : AuctionState) (new_starting_price : Option Rat)
    (now : Rat) : AuctionState :=
  let sp : Rat :=
    match new_starting_price with
    | some p => if p ≠ 0 then p else s.starting_price
    | none => s.starting_price
  { current_price := sp
    current_winner := none
    starting_price := sp
    min_increment := s.min_increment
    is_active := true
    bid_history := []
    total_bids := 0
    unique_bidders := ∅
    start_time := now
    end_time := none }

/-- One call in a session history: the three mutating methods of
`AuctionState`, each with the clock reading at the time of the call. -/
inductive Op where
  | bid (user : String) (value : Rat) (now : Rat)
  | endAuction (now : Rat)
  | reset (new_starting_price : Option Rat) (now : Rat)

/-- Apply one call to the state (the result tuple of `place_bid` is
discarded, only the state change is kept). -/
def applyOp (s : AuctionState) : Op → AuctionState
  | .bid u v t => (s.place_bid u v t).2
  | .endAuction t => s.end_auction t
  | .reset p t => s.reset_auction p t

/-- Run a sequence of calls from a state. -/
def runOps (s : AuctionState) (ops : List Op) : AuctionState :=
  ops.foldl applyOp s

/-- A state is reachable when some construction followed by some sequence of
`place_bid`, `end_auction` and `reset_auction` calls produces it. -/
def Reachable (s : AuctionState) : Prop :=
  ∃ sp mi t0 ops, runOps (AuctionState.init sp mi t0) ops = s

/-- A connection handle registered with the hub.  `sendOk` models whether
`sendall` on this socket succeeds or raises. -/
structure ClientSocket where
  sid : Nat
  sendOk : Bool
deriving DecidableEq, Repr

/-- The state of `AuctionHub.__init__`: the ordered dict mapping sockets to
client ids (a Python dict iterates in insertion order and its keys are
distinct) and the broadcast counter.  The lock and the `auction_state`
reference carry no state of their own. -/
structure AuctionHub where
  clients : List (ClientSocket × String)
  message_count : Nat
deriving DecidableEq, Repr

/-- `AuctionHub.remove_client(client_socket)`: pops the socket's entry if
present and returns its client id, else returns `None`.  Removal is by key;
dict keys are distinct, so filtering out the key removes exactly the popped
entry. -/
def AuctionHub.remove_client (h : AuctionHub) (sock : ClientSocket) :
    AuctionHub × Option String :=
  match h.clients.find? (fun p => p.1 = sock) with
  | some p => ({ h with clients := h.clients.filter (fun q => q.1 ≠ sock) }, some p.2)
  | none => (h, none)

/-- `AuctionHub.broadcast_message(message_dict, exclude_socket)`: iterates
the registry, skipping the excluded socket (a socket object is truthy, so
`exclude = none` models `exclude_socket=None`), counts the sends that
succeed, collects the sockets whose send raises, removes those after the
iteration via `remove_client`, increments `message_count` once, and returns
the success count. -/
def AuctionHub.broadcast_message (h : AuctionHub) (payload : String)
    (exclude : Option ClientSocket) : AuctionHub × Nat :=
  let _ := payload  -- serialised once, sent to every target; no effect on hub state
  let targets := h.clients.filter (fun p =>
    match exclude with
    | some e => decide (p.1 ≠ e)
    | none => true)
  let success_count := (targets.filter (fun p => p.1.sendOk)).length
  let disconnected := (targets.filter (fun p => ¬ p.1.sendOk)).map Prod.fst
  let h1 := disconnected.foldl (fun acc sock => (acc.remove_client sock).1) h
  ({ h1 with message_count := h1.message_count + 1 }, success_count)

/-! ## Session invariant, established by induction over call traces -/

/-- The invariant maintained by every `AuctionState` method: the price never
drops below the starting price, the price is the value of the last accepted
bid (or the starting price when there is none), the history length tracks
`total_bids`, the bid numbers are exactly `1..total_bids` in order, and an
inactive auction has its `end_time` recorded. -/
def AuctionInv (s : AuctionState) : Prop :=
  s.starting_price ≤ s.current_price ∧
  s.current_price = s.bid_history.getLast?.elim s.starting_price BidRecord.value ∧
  s.bid_history.length = s.total_bids ∧
  s.bid_history.map BidRecord.bid_number = List.range' 1 s.total_bids ∧
  (s.is_active = false → s.end_time ≠ none)

lemma auctionInv_init (sp mi t0 : Rat) : AuctionInv (AuctionState.init sp mi t0) := by
  simp [AuctionInv, AuctionState.init]

lemma auctionInv_applyOp (s : AuctionState) (op : Op) (h : AuctionInv s) :
    AuctionInv (applyOp s op) := by
  obtain ⟨h1, h2, h3, h4, h5⟩ := h
  cases op with
  | bid u v t =>
    show AuctionInv (s.place_bid u v t).2
    unfold AuctionState.place_bid
    split_ifs with c1 c2 c3 c4
    · exact ⟨h1, h2, h3, h4, h5⟩
    · exact ⟨h1, h2, h3, h4, h5⟩
    · exact ⟨h1, h2, h3, h4, h5⟩
    · exact ⟨h1, h2, h3, h4, h5⟩
    · refine ⟨?_, ?_, ?_, ?_, ?_⟩
      · exact le_of_lt (lt_of_le_of_lt h1 (not_le.mp c3))
      · simp [List.getLast?_concat]
      · simp [h3]
      · simp only [List.map_append, List.map_cons, List.map_nil, h4]
        have := @List.range'_concat 1 1 s.total_bids
        simp only [one_mul] at this
        rw [this, Nat.add_comm 1 s.total_bids]
      · simpa using h5
  | endAuction t =>
    exact ⟨h1, h2, h3, h4, by simp [applyOp, AuctionState.end_auction]⟩
  | reset p t =>
    refine ⟨le_refl _, ?_, ?_, ?_, ?_⟩ <;> simp [applyOp, AuctionState.reset_auction]

lemma auctionInv_runOps (s : AuctionState) (ops : List Op) (h : AuctionInv s) :
    AuctionInv (runOps s ops) := by
  induction ops generalizing s with
  | nil => exact h
  | cons op ops ih => exact ih _ (auctionInv_applyOp s op h)

lemma reachable_auctionInv (s : AuctionState) (h : Reachable s) : AuctionInv s := by
  obtain ⟨sp, mi, t0, ops, rfl⟩ := h
  exact auctionInv_runOps _ _ (auctionInv_init sp mi t0)

/-! ## Claim theorems -/

/-- C1: `place_bid` returns `(false, message)` and leaves the state
unchanged exactly when the auction is inactive, or the value is
nonpositive, or does not exceed the current price, or falls short of the
minimum increment; the four checks run in source order and the first one
that fails picks the message. -/
theorem place_bid_rejection_characterization (s : AuctionState) (u : String) (v t : Rat) :
    ((s.place_bid u v t).1.1 = false ↔
      (s.is_active = false ∨ v ≤ 0 ∨ v ≤ s.current_price ∨
        v < s.current_price + s.min_increment)) ∧
    ((s.place_bid u v t).1.1 = false → (s.place_bid u v t).2 = s) ∧
    (s.is_active = false → (s.place_bid u v t).1.2 = BidMsg.auctionEnded) ∧
    (s.is_active = true → v ≤ 0 → (s.place_bid u v t).1.2 = BidMsg.mustBePositive) ∧
    (s.is_active = true → 0 < v → v ≤ s.current_price →
      (s.place_bid u v t).1.2 = BidMsg.mustExceed s.current_price) ∧
    (s.is_active = true → 0 < v → s.current_price < v →
      v < s.current_price + s.min_increment →
      (s.place_bid u v t).1.2 =
        BidMsg.belowMinimum (s.current_price + s.min_increment) s.min_increment) := by
  unfold AuctionState.place_bid
  split_ifs with c1 c2 c3 c4 <;>
    refine ⟨?_, ?_, ?_, ?_, ?_, ?_⟩ <;> simp_all

/-- Witness for C1: in an ended auction a high bid is rejected with the
auction-ended message and the state is untouched. -/
theorem place_bid_rejection_characterization_witness :
    (((AuctionState.init 1000 50 0).end_auction 1).place_bid "u" 2000 2).1.1 = false ∧
    (((AuctionState.init 1000 50 0).end_auction 1).place_bid "u" 2000 2).2 =
      (AuctionState.init 1000 50 0).end_auction 1 ∧
    (((AuctionState.init 1000 50 0).end_auction 1).place_bid "u" 2000 2).1.2 =
      BidMsg.auctionEnded := by
  have h := place_bid_rejection_characterization
    ((AuctionState.init 1000 50 0).end_auction 1) "u" 2000 2
  have hact : ((AuctionState.init 1000 50 0).end_auction 1).is_active = false := rfl
  have hrej := h.1.mpr (Or.inl hact)
  exact ⟨hrej, h.2.1 hrej, h.2.2.1 hact⟩

/-- C2: an in-range bid on an active auction is accepted and updates the
price, winner, bid count, bidder set and history as the source does; and in
the concrete session with starting price 1000 and increment 50, alice's
1050 is accepted, bob's 1060 is rejected naming the minimum 1100, and
bob's 1100 is accepted. -/
theorem place_bid_success_updates :
    (∀ (s : AuctionState) (u : String) (v t : Rat),
        s.is_active = true → 0 < v → s.current_price < v →
        s.current_price + s.min_increment ≤ v →
        (s.place_bid u v t).1.1 = true ∧
        (s.place_bid u v t).2.current_price = v ∧
        (s.place_bid u v t).2.current_winner = some u ∧
        (s.place_bid u v t).2.total_bids = s.total_bids + 1 ∧
        u ∈ (s.place_bid u v t).2.unique_bidders ∧
        (s.place_bid u v t).2.bid_history = s.bid_history ++
          [{ user := u, value := v, timestamp := t,
             bid_number := s.total_bids + 1 }]) ∧
    ((AuctionState.init 1000 50 0).place_bid "alice" 1050 1).1.1 = true ∧
    ((AuctionState.init 1000 50 0).place_bid "alice" 1050 1).2.current_price = 1050 ∧
    (((AuctionState.init 1000 50 0).place_bid "alice" 1050 1).2.place_bid
        "bob" 1060 2).1.1 = false ∧
    (((AuctionState.init 1000 50 0).place_bid "alice" 1050 1).2.place_bid
        "bob" 1060 2).1.2 = BidMsg.belowMinimum 1100 50 ∧
    (((AuctionState.init 1000 50 0).place_bid "alice" 1050 1).2.place_bid
        "bob" 1100 3).1.1 = true := by
  refine ⟨?_, ?_⟩
  · intro s u v t hact hpos hgt hmin
    simp [AuctionState.place_bid, hact, not_le.mpr hpos, not_le.mpr hgt, not_lt.mpr hmin]
  · refine ⟨?_, ?_, ?_, ?_, ?_⟩ <;>
      norm_num [AuctionState.place_bid, AuctionState.init]

/-- Witness for C2: the success clause applied to a fresh auction with
starting price 500 and increment 10 at bid 600. -/
theorem place_bid_success_updates_witness :
    ((AuctionState.init 500 10 0).place_bid "carol" 600 4).1.1 = true ∧
    ((AuctionState.init 500 10 0).place_bid "carol" 600 4).2.current_price = 600 ∧
    ((AuctionState.init 500 10 0).place_bid "carol" 600 4).2.total_bids = 1 := by
  have h := place_bid_success_updates.1 (AuctionState.init 500 10 0) "carol" 600 4
    rfl (by norm_num) (by norm_num [AuctionState.init]) (by norm_num [AuctionState.init])
  exact ⟨h.1, h.2.1, by rw [h.2.2.2.1]; rfl⟩

/-- C3: in every reachable state the current price is at least the starting
price and equals the value of the last history record (or the starting
price when the history is empty), the history length equals `total_bids`,
and the bid numbers are exactly `1..total_bids` in order. -/
theorem reachable_state_invariants (s : AuctionState) (h : Reachable s) :
    s.starting_price ≤ s.current_price ∧
    s.current_price = s.bid_history.getLast?.elim s.starting_price BidRecord.value ∧
    s.bid_history.length = s.total_bids ∧
    s.bid_history.map BidRecord.bid_number = List.range' 1 s.total_bids := by
  obtain ⟨h1, h2, h3, h4, _⟩ := reachable_auctionInv s h
  exact ⟨h1, h2, h3, h4⟩

/-- Witness for C3: the state after one accepted bid is reachable, its
price 1050 is the last record's value and exceeds the starting 1000, and
the lone bid is numbered 1. -/
theorem reachable_state_invariants_witness :
    Reachable (runOps (AuctionState.init 1000 50 0) [Op.bid "a" 1050 1]) ∧
    (runOps (AuctionState.init 1000 50 0) [Op.bid "a" 1050 1]).starting_price ≤
      (runOps (AuctionState.init 1000 50 0) [Op.bid "a" 1050 1]).current_price ∧
    (runOps (AuctionState.init 1000 50 0)
        [Op.bid "a" 1050 1]).bid_history.map BidRecord.bid_number =
      List.range' 1 (runOps (AuctionState.init 1000 50 0) [Op.bid "a" 1050 1]).total_bids := by
  have hr : Reachable (runOps (AuctionState.init 1000 50 0) [Op.bid "a" 1050 1]) :=
    ⟨1000, 50, 0, [Op.bid "a" 1050 1], rfl⟩
  have h := reachable_state_invariants _ hr
  exact ⟨hr, h.1, h.2.2.2⟩

/-- C9: in every reachable state, an inactive auction has its `end_time`
recorded, so `get_statistics` never takes the branch that leaves
`duration_seconds` unset: the duration is the frozen `end_time -
start_time` when `end_time` is set and `now - start_time` otherwise. -/
theorem reachable_inactive_has_end_time (s : AuctionState) (h : Reachable s) :
    (s.is_active = false → s.end_time ≠ none) ∧
    (∀ now e, s.end_time = some e →
      (s.get_statistics now).duration_seconds = some (e - s.start_time)) ∧
    (∀ now, s.end_time = none →
      (s.get_statistics now).duration_seconds = some (now - s.start_time)) := by
  obtain ⟨_, _, _, _, h5⟩ := reachable_auctionInv s h
  refine ⟨h5, ?_, ?_⟩
  · intro now e he
    simp [AuctionState.get_statistics, he]
  · intro now he
    have hact : s.is_active = true := by
      by_contra hc
      exact h5 (by simpa using hc) he
    simp [AuctionState.get_statistics, he, hact]

/-- Witness for C9: after ending at time 5, the state is reachable, its
end time is set, and statistics taken at time 9 report the frozen
duration 5. -/
theorem reachable_inactive_has_end_time_witness :
    (runOps (AuctionState.init 1000 50 0) [Op.endAuction 5]).end_time ≠ none ∧
    ((runOps (AuctionState.init 1000 50 0)
        [Op.endAuction 5]).get_statistics 9).duration_seconds = some 5 := by
  have hr : Reachable (runOps (AuctionState.init 1000 50 0) [Op.endAuction 5]) :=
    ⟨1000, 50, 0, [Op.endAuction 5], rfl⟩
  have h := reachable_inactive_has_end_time _ hr
  have he : (runOps (AuctionState.init 1000 50 0) [Op.endAuction 5]).end_time = some 5 := rfl
  have hd := h.2.1 9 5 he
  refine ⟨h.1 rfl, ?_⟩
  rw [hd]
  norm_num [runOps, applyOp, AuctionState.init, AuctionState.end_auction]

/-- C5 counterexample: ending at time 5 and again at time 9 moves
`end_time` from `some 5` to `some 9`, and the reported duration moves from
5 to 9 — a second `end_auction` call does not leave them unchanged. -/
theorem end_auction_second_call_changes_end_time :
    ((AuctionState.init 1000 50 0).end_auction 5).end_time = some 5 ∧
    (((AuctionState.init 1000 50 0).end_auction 5).end_auction 9).end_time = some 9 ∧
    (((AuctionState.init 1000 50 0).end_auction 5).end_auction 9).end_time ≠
      ((AuctionState.init 1000 50 0).end_auction 5).end_time ∧
    (((AuctionState.init 1000 50 0).end_auction 5).get_statistics 10).duration_seconds =
      some 5 ∧
    ((((AuctionState.init 1000 50 0).end_auction 5).end_auction 9).get_statistics
        10).duration_seconds = some 9 := by
  refine ⟨rfl, rfl, ?_, ?_, ?_⟩ <;>
    norm_num [AuctionState.init, AuctionState.end_auction, AuctionState.get_statistics]

/-- C5 amended: a second `end_auction` call keeps `is_active` false but
overwrites `end_time` with the second call's time — it acts exactly like a
single `end_auction` at that time — so the duration reported by
`get_statistics` follows the latest call rather than staying frozen. -/
theorem end_auction_second_call_overwrites (s : AuctionState) (t1 t2 : Rat) :
    ((s.end_auction t1).end_auction t2).is_active = false ∧
    ((s.end_auction t1).end_auction t2).end_time = some t2 ∧
    (s.end_auction t1).end_auction t2 = s.end_auction t2 ∧
    ∀ now, (((s.end_auction t1).end_auction t2).get_statistics now).duration_seconds =
      some (t2 - s.start_time) := by
  refine ⟨rfl, rfl, rfl, fun now => ?_⟩
  simp [AuctionState.end_auction, AuctionState.get_statistics]

/-- C6 counterexample: after `reset_auction(0)` the starting price is still
1000, not the 0 the claim requires — `0` is falsy, so the source's
`if new_starting_price:` keeps the old starting price. -/
theorem reset_auction_zero_keeps_starting_price :
    ((AuctionState.init 1000 50 0).reset_auction (some 0) 1).starting_price = 1000 ∧
    ((AuctionState.init 1000 50 0).reset_auction (some 0) 1).starting_price ≠ 0 := by
  refine ⟨?_, ?_⟩ <;> norm_num [AuctionState.init, AuctionState.reset_auction]

/-- C6 amended: `reset_auction` always restores a fresh session (price back
to the starting price, empty history, zero bids, no bidders, no winner, no
end time, active), and `starting_price` is replaced exactly when the
optional argument is given and nonzero; an argument of 0 — being falsy —
keeps the old starting price, as does omitting it. -/
theorem reset_auction_fresh_session (s : AuctionState) (o : Option Rat) (t : Rat) :
    (s.reset_auction o t).current_price = (s.reset_auction o t).starting_price ∧
    (s.reset_auction o t).bid_history = [] ∧
    (s.reset_auction o t).total_bids = 0 ∧
    (s.reset_auction o t).unique_bidders = ∅ ∧
    (s.reset_auction o t).current_winner = none ∧
    (s.reset_auction o t).end_time = none ∧
    (s.reset_auction o t).is_active = true ∧
    (∀ p, o = some p → p ≠ 0 → (s.reset_auction o t).starting_price = p) ∧
    (o = some 0 → (s.reset_auction o t).starting_price = s.starting_price) ∧
    (o = none → (s.reset_auction o t).starting_price = s.starting_price) := by
  refine ⟨rfl, rfl, rfl, rfl, rfl, rfl, rfl, ?_, ?_, ?_⟩
  · rintro p rfl hp
    simp [AuctionState.reset_auction, hp]
  · rintro rfl
    simp [AuctionState.reset_auction]
  · rintro rfl
    simp [AuctionState.reset_auction]

/-- Witness for the amended C6: resetting an auction that saw a bid and
ended, with new starting price 7, yields a fresh active session whose
starting and current price are 7. -/
theorem reset_auction_fresh_session_witness :
    ((((AuctionState.init 1000 50 0).place_bid "a" 1050 1).2.end_auction
        2).reset_auction (some 7) 3).starting_price = 7 ∧
    ((((AuctionState.init 1000 50 0).place_bid "a" 1050 1).2.end_auction
        2).reset_auction (some 7) 3).current_price = 7 ∧
    ((((AuctionState.init 1000 50 0).place_bid "a" 1050 1).2.end_auction
        2).reset_auction (some 7) 3).is_active = true := by
  have h := reset_auction_fresh_session
    (((AuctionState.init 1000 50 0).place_bid "a" 1050 1).2.end_auction 2) (some 7) 3
  have hsp := h.2.2.2.2.2.2.2.1 7 rfl (by norm_num)
  exact ⟨hsp, by rw [h.1, hsp], h.2.2.2.2.2.2.1⟩

/-- An 11-bid history used to evaluate the history accessors on concrete
data. -/
def historyEleven : List BidRecord :=
  (List.range 11).map (fun (i : Nat) =>
    { user := "u", value := (1000 : Rat) + (i : Rat), timestamp := (i : Rat),
      bid_number := i + 1 })

/-- A session holding the 11-bid history. -/
def stateEleven : AuctionState :=
  { AuctionState.init 1000 50 0 with bid_history := historyEleven, total_bids := 11 }

lemma historyEleven_length : historyEleven.length = 11 := by
  simp [historyEleven]

/-- C7 counterexample: on an 11-record history, calling `get_bid_history`
with the limit unset uses the Python default `limit=10` and returns only 10
records, not the full history the claim requires. -/
theorem get_bid_history_default_truncates :
    stateEleven.bid_history.length = 11 ∧
    stateEleven.get_bid_history_default.length = 10 ∧
    stateEleven.get_bid_history_default ≠ stateEleven.bid_history := by
  have h1 : stateEleven.bid_history.length = 11 := historyEleven_length
  have h2 : stateEleven.get_bid_history_default.length = 10 := by
    simp only [AuctionState.get_bid_history_default, AuctionState.get_bid_history, sliceFrom]
    norm_num [historyEleven_length, stateEleven]
  refine ⟨h1, h2, fun hc => ?_⟩
  rw [hc, h1] at h2
  exact absurd h2 (by norm_num)

/-- C7 amended: `get_bid_history` returns the `limit` most recent records in
chronological order for a positive limit, and the full history for a limit
of `None` or `0`; an unset limit defaults to 10 rather than to the full
history.  The source returns a fresh list (a slice or a copy), never the
internal one. -/
theorem get_bid_history_semantics (s : AuctionState) (l : Int) :
    (0 < l → s.get_bid_history (some l) = (s.bid_history.reverse.take l.toNat).reverse) ∧
    s.get_bid_history none = s.bid_history ∧
    s.get_bid_history (some 0) = s.bid_history ∧
    s.get_bid_history_default = s.get_bid_history (some 10) := by
  refine ⟨fun hl => ?_, rfl, by simp [AuctionState.get_bid_history], rfl⟩
  simp only [AuctionState.get_bid_history, sliceFrom]
  rw [if_pos (by omega : l ≠ 0), if_neg (by omega : ¬ (0:Int) ≤ -l),
    List.take_reverse, List.reverse_reverse]
  congr 1
  omega

/-- Witness for the amended C7: on the 11-record history a limit of 3 yields
the 3 most recent records. -/
theorem get_bid_history_semantics_witness :
    stateEleven.get_bid_history (some 3) =
      (stateEleven.bid_history.reverse.take 3).reverse ∧
    (stateEleven.get_bid_history (some 3)).length = 3 := by
  have h := (get_bid_history_semantics stateEleven 3).1 (by norm_num)
  have h3 : stateEleven.get_bid_history (some 3) =
      (stateEleven.bid_history.reverse.take 3).reverse := by simpa using h
  refine ⟨h3, ?_⟩
  rw [h3]
  norm_num [stateEleven, historyEleven_length]

/-- C10: a negative limit `-k` is not rejected and does not take the most
recent records: the slice `bid_history[-limit:]` becomes `bid_history[k:]`,
the history with its first `k` records dropped, hence empty when `k` is at
least the history length. -/
theorem get_bid_history_negative_limit (s : AuctionState) (k : Int) (hk : 0 < k) :
    s.get_bid_history (some (-k)) = s.bid_history.drop k.toNat ∧
    ((s.bid_history.length : Int) ≤ k → s.get_bid_history (some (-k)) = []) := by
  have hmain : s.get_bid_history (some (-k)) = s.bid_history.drop k.toNat := by
    simp only [AuctionState.get_bid_history, sliceFrom]
    rw [if_pos (by omega : -k ≠ 0), neg_neg, if_pos (by omega : (0:Int) ≤ k)]
  refine ⟨hmain, fun hlen => ?_⟩
  rw [hmain]
  exact List.drop_eq_nil_of_le (by omega)

/-- Witness for C10: a limit of -3 on the 11-record history drops the first
3 records, leaving 8. -/
theorem get_bid_history_negative_limit_witness :
    stateEleven.get_bid_history (some (-3)) = stateEleven.bid_history.drop 3 ∧
    (stateEleven.get_bid_history (some (-3))).length = 8 := by
  have h := (get_bid_history_negative_limit stateEleven 3 (by norm_num)).1
  have h3 : stateEleven.get_bid_history (some (-3)) = stateEleven.bid_history.drop 3 := by
    simpa using h
  refine ⟨h3, ?_⟩
  rw [h3]
  norm_num [stateEleven, historyEleven_length]

/-- C8: `get_statistics` never divides by zero: with no bids the average
bid interval is 0, and with bids it is the duration divided by the
(nonzero) bid count. -/
theorem get_statistics_no_div_by_zero (s : AuctionState) (now : Rat) :
    (s.total_bids = 0 → (s.get_statistics now).avg_bid_interval = some 0) ∧
    (0 < s.total_bids →
      ((s.total_bids : Rat) ≠ 0 ∧
        (s.get_statistics now).avg_bid_interval =
          (s.get_statistics now).duration_seconds.map
            (fun d => d / (s.total_bids : Rat)))) := by
  constructor
  · intro h0
    simp [AuctionState.get_statistics, h0]
  · intro hpos
    refine ⟨Nat.cast_ne_zero.mpr hpos.ne', ?_⟩
    simp [AuctionState.get_statistics, hpos]

/-- Witness for C8: a fresh session reports average 0; the 11-bid session
observed 22 seconds in reports average 2. -/
theorem get_statistics_no_div_by_zero_witness :
    ((AuctionState.init 1000 50 0).get_statistics 9).avg_bid_interval = some 0 ∧
    (stateEleven.get_statistics 22).avg_bid_interval = some 2 := by
  have h0 := (get_statistics_no_div_by_zero (AuctionState.init 1000 50 0) 9).1 rfl
  have h1 := (get_statistics_no_div_by_zero stateEleven 22).2
    (by norm_num [stateEleven, AuctionState.init])
  refine ⟨h0, ?_⟩
  rw [h1.2]
  norm_num [stateEleven, AuctionState.init, AuctionState.get_statistics]

lemma remove_client_clients (h : AuctionHub) (sock : ClientSocket) :
    (h.remove_client sock).1.clients = h.clients.filter (fun q => q.1 ≠ sock) ∧
    (h.remove_client sock).1.message_count = h.message_count := by
  cases hf : h.clients.find? (fun p => p.1 = sock) with
  | some p => simp [AuctionHub.remove_client, hf]
  | none =>
    simp only [AuctionHub.remove_client, hf]
    refine ⟨?_, trivial⟩
    have hall : ∀ q ∈ h.clients, ¬ q.1 = sock := by
      intro q hq
      simpa using List.find?_eq_none.mp hf q hq
    exact (List.filter_eq_self.mpr (fun a ha => by simpa using hall a ha)).symm

lemma foldl_remove_client (socks : List ClientSocket) (h : AuctionHub) :
    ((socks.foldl (fun acc s => (acc.remove_client s).1) h).clients =
      h.clients.filter (fun q => decide (q.1 ∉ socks))) ∧
    (socks.foldl (fun acc s => (acc.remove_client s).1) h).message_count =
      h.message_count := by
  induction socks generalizing h with
  | nil => simp
  | cons a as ih =>
    have hr := remove_client_clients h a
    refine ⟨?_, ?_⟩
    · rw [List.foldl_cons, (ih _).1, hr.1, List.filter_filter]
      refine List.filter_congr ?_
      intro x hx
      simp [List.mem_cons, not_or, Bool.and_comm]
    · rw [List.foldl_cons, (ih _).2, hr.2]

/-- C4: `broadcast_message` over a registry of R connections of which K
have failing sends returns R - K, leaves exactly the successful
connections registered (the K failed ones are removed), and bumps
`message_count` by exactly one whatever the per-client outcomes. -/
theorem broadcast_message_partition (h : AuctionHub) (payload : String) :
    (h.broadcast_message payload none).2 =
      h.clients.length - (h.clients.filter (fun p => p.1.sendOk = false)).length ∧
    (h.broadcast_message payload none).1.clients =
      h.clients.filter (fun p => p.1.sendOk) ∧
    (h.broadcast_message payload none).1.message_count = h.message_count + 1 := by
  have hfold := foldl_remove_client
    ((h.clients.filter (fun p => ¬ p.1.sendOk)).map Prod.fst) h
  simp only [AuctionHub.broadcast_message, List.filter_true]
  refine ⟨?_, ?_, ?_⟩
  · have hpred : h.clients.filter (fun p => decide (p.1.sendOk = false)) =
        h.clients.filter (fun p => !p.1.sendOk) :=
      List.filter_congr (fun x _ => by simp)
    have hsplit := @List.length_eq_length_filter_add _ h.clients (fun p => p.1.sendOk)
    rw [hpred]
    omega
  · rw [hfold.1]
    refine List.filter_congr ?_
    intro x hx
    by_cases hok : x.1.sendOk
    · simp only [hok, decide_eq_true_eq]
      simp only [List.mem_map, List.mem_filter, not_exists]
      intro p hp
      obtain ⟨⟨hp1, hp2⟩, hpe⟩ := hp
      rw [hpe] at hp2
      simp [hok] at hp2
    · simp only [Bool.not_eq_true] at hok
      simp only [hok, decide_eq_false_iff_not, not_not]
      exact List.mem_map.mpr ⟨x, List.mem_filter.mpr ⟨hx, by simp [hok]⟩, rfl⟩
  · rw [hfold.2]
